import Mathlib

/-!
Verification development for the crane-game prize inventory app.

The app is a React single-page CRUD form whose state is a list of prize
records persisted to localStorage.  This file gives a shallow embedding of
the parts of the source that the specification talks about:

* `JsVal` and `migratePrizes` model the untyped JSON layer and the
  `migratePrizes` normalization function.
* `Prize`, `handleSavePrize`, `handleDeletePrize`, `filteredAndSortedPrizes`
  and `resetForm` model the typed collection operations and the view model.
* `AppModel` together with `step`/`run` is a discrete-time operational model
  of the debounced persistence effect (hydration guard, generation counter,
  save timer, status timer, store writes).

JavaScript runtime functions that the source uses (`toLowerCase`, `trim`,
`includes`, `Array.prototype.sort`, `Date.getTime` on ISO dates) are
modelled by executable character-list functions; `sort` is modelled by a
stable insertion sort, matching the ECMAScript requirement that
`Array.prototype.sort` is stable, and `Date.getTime` on `YYYY-MM-DD`
strings by an order-isomorphic numeric key.
-/

namespace Inventory

/-! ## The untyped JSON layer and `migratePrizes` -/

/-- A decoded JavaScript value, as produced by `JSON.parse` (plus
`undefined`, which can appear as a missing property).  Numbers are modelled
as integers; no fractional number is relevant to any claim. -/
inductive JsVal where
  | jnull
  | jundefined
  | jbool (b : Bool)
  | jnum (n : Int)
  | jstr (s : String)
  | jarr (elems : List JsVal)
  | jobj (fields : List (String × JsVal))
deriving Repr

/-- JavaScript truthiness: `null`, `undefined`, `false`, `0` and the empty
string are falsy; every array and object is truthy. -/
def truthy : JsVal → Bool
  | .jnull => false
  | .jundefined => false
  | .jbool b => b
  | .jnum n => n != 0
  | .jstr s => s != ""
  | .jarr _ => true
  | .jobj _ => true

/-- Nullish (`== null`): only `null` and `undefined`. -/
def nullish : JsVal → Bool
  | .jnull => true
  | .jundefined => true
  | _ => false

/-- First binding of a key in an object's field list. -/
def lookupField : List (String × JsVal) → String → Option JsVal
  | [], _ => none
  | (k, v) :: rest, key => if k == key then some v else lookupField rest key

/-- Property write: update the first binding of the key in place, or append
a new binding at the end — JavaScript objects keep the insertion position of
an existing key when it is assigned again. -/
def setField : List (String × JsVal) → String → JsVal → List (String × JsVal)
  | [], key, v => [(key, v)]
  | (k, w) :: rest, key, v =>
    if k == key then (key, v) :: rest else (k, w) :: setField rest key v

/-- Own enumerable properties, as collected by object spread `{...p}`:
objects contribute their fields, arrays and strings their indexed elements,
primitives nothing. -/
def ownFields : JsVal → List (String × JsVal)
  | .jobj fs => fs
  | .jarr elems => elems.enum.map (fun p => (toString p.1, p.2))
  | .jstr s => s.data.enum.map (fun p => (toString p.1, JsVal.jstr (String.mk [p.2])))
  | _ => []

/-- Property read `p.key`, `undefined` when absent. -/
def getField (v : JsVal) (key : String) : JsVal :=
  (lookupField (ownFields v) key).getD .jundefined

/-- JavaScript `a || b`. -/
def jsOr (a b : JsVal) : JsVal := if truthy a then a else b

/-- JavaScript `a ?? b`. -/
def jsCoalesce (a b : JsVal) : JsVal := if nullish a then b else a

/-- `Array.isArray`. -/
def isListShaped : JsVal → Bool
  | .jarr _ => true
  | _ => false

/-- The body of the `.map` in `migratePrizes`:
`p => ({ ...p, category: p.category || 'その他', quantity: p.quantity ?? 1 })`. -/
def migrateElem (p : JsVal) : JsVal :=
  .jobj (setField
    (setField (ownFields p) "category" (jsOr (getField p "category") (.jstr "その他")))
    "quantity" (jsCoalesce (getField p "quantity") (.jnum 1)))

/-- `migratePrizes` from the source: empty when not an array, otherwise
`parsed.filter(Boolean).map(p => ({...p, category: p.category || 'その他',
quantity: p.quantity ?? 1}))`. -/
def migratePrizes (parsed : JsVal) : List JsVal :=
  match parsed with
  | .jarr elems => (elems.filter truthy).map migrateElem
  | _ => []

/-! ## The typed prize record and string helpers -/

/-- A prize record, fields exactly as in the `Prize` type used by the app.
Categories and manufacturers are enumerated strings in the source; the
claims never depend on the enumeration being closed, so plain strings are
used. -/
structure Prize where
  id : String
  name : String
  category : String
  manufacturer : String
  quantity : Int
  acquisitionDate : String
  photo : String
  notes : String
deriving DecidableEq, Repr

/-- `String.prototype.toLowerCase`, restricted to simple per-character
lowercasing (sufficient for every string the claims mention). -/
def toLowerStr (s : String) : String := String.mk (s.data.map Char.toLower)

/-- Whitespace for `String.prototype.trim`. -/
def wsChar (c : Char) : Bool := c == ' ' || c == '\t' || c == '\n' || c == '\r'

/-- `String.prototype.trim`: drop whitespace from both ends. -/
def trimStr (s : String) : String :=
  String.mk (((s.data.dropWhile wsChar).reverse.dropWhile wsChar).reverse)

/-- Does the second list occur at the head of the first? -/
def headMatches : List Char → List Char → Bool
  | _, [] => true
  | [], _ :: _ => false
  | c :: cs, d :: ds => c == d && headMatches cs ds

/-- Does the second list occur contiguously anywhere in the first? -/
def containsL : List Char → List Char → Bool
  | [], needle => needle.isEmpty
  | c :: cs, needle => headMatches (c :: cs) needle || containsL cs needle

/-- `String.prototype.includes`. -/
def strIncludes (hay needle : String) : Bool := containsL hay.data needle.data

/-- `new Date(s).getTime()` on an ISO `YYYY-MM-DD` string, modelled by the
digits of the string read as a number (`"2024-01-01" ↦ 20240101`), which is
order-isomorphic to the millisecond timestamp on such strings. -/
def dateKey (s : String) : Nat :=
  s.data.foldl (fun n c => if c.isDigit then n * 10 + (c.toNat - 48) else n) 0

/-! ## Stable sorting (model of `Array.prototype.sort`) -/

/-- Insert an element in front of the first entry it is `le`-related to. -/
def insertLe {α : Type} (le : α → α → Bool) (a : α) : List α → List α
  | [] => [a]
  | b :: l => if le a b then a :: b :: l else b :: insertLe le a l

/-- Stable insertion sort: ECMAScript requires `Array.prototype.sort` to be
stable, and for a consistent comparator the result is sorted; insertion
sort is the simplest executable function with exactly these properties. -/
def stableSort {α : Type} (le : α → α → Bool) : List α → List α
  | [] => []
  | a :: l => insertLe le a (stableSort le l)

/-- Comparator of the `date-desc` branch: `(a, b) => new
Date(b.acquisitionDate).getTime() - new Date(a.acquisitionDate).getTime()`,
i.e. `a` may stay before `b` iff `b`'s date is at most `a`'s. -/
def dateDescLe (a b : Prize) : Bool :=
  dateKey b.acquisitionDate ≤ dateKey a.acquisitionDate

/-- Comparator of the `name-asc` branch (`a.name.localeCompare(b.name,
'ja')`); locale collation is modelled by the default string order, which no
claim depends on. -/
def nameAscLe (a b : Prize) : Bool := a.name ≤ b.name

/-- Comparator of the `name-desc` branch. -/
def nameDescLe (a b : Prize) : Bool := b.name ≤ a.name

/-! ## The view model -/

inductive SortOrder where
  | dateDesc
  | nameAsc
  | nameDesc
deriving DecidableEq, Repr

/-- The filter predicate inside `filteredAndSortedPrizes`; `searchTermLower`
is the already trimmed and lowercased search term. -/
def prizeMatchesFilter (searchTermLower selectedCategory : String) (prize : Prize) : Bool :=
  strIncludes (toLowerStr prize.name) searchTermLower &&
    (selectedCategory == "すべて" || prize.category == selectedCategory)

/-- `filteredAndSortedPrizes` from the source: trim and lowercase the search
term, filter by name substring and category (sentinel `'すべて'` matches
all), then sort according to the selected order. -/
def filteredAndSortedPrizes (prizes : List Prize) (searchTerm selectedCategory : String)
    (sortOrder : SortOrder) : List Prize :=
  let term := toLowerStr (trimStr searchTerm)
  let filtered := prizes.filter (prizeMatchesFilter term selectedCategory)
  match sortOrder with
  | .nameAsc => stableSort nameAscLe filtered
  | .nameDesc => stableSort nameDescLe filtered
  | .dateDesc => stableSort dateDescLe filtered

/-- Spec-side predicate, modelled from the spec's words for claim C8 only:
"records whose name contains the search term case-insensitively" — note: the
search term itself, not its trimmed form. -/
def specNameMatch (name searchTerm : String) : Bool :=
  strIncludes (toLowerStr name) (toLowerStr searchTerm)

/-! ## CRUD handlers -/

/-- JavaScript `Array.prototype.findIndex`: index of the first match, `-1`
when there is none. -/
def findIndex {α : Type} (l : List α) (pred : α → Bool) : Int :=
  match l with
  | [] => -1
  | a :: rest =>
    if pred a then 0
    else
      let r := findIndex rest pred
      if r < 0 then -1 else r + 1

/-- `handleSavePrize`: replace the record at the first index whose id
matches, else append. -/
def handleSavePrize (prevPrizes : List Prize) (prize : Prize) : List Prize :=
  let existingIndex := findIndex prevPrizes (fun p => p.id == prize.id)
  if existingIndex > -1 then
    prevPrizes.set existingIndex.toNat prize
  else
    prevPrizes ++ [prize]

/-- The App state that `handleDeletePrize` touches. -/
structure UiState where
  prizes : List Prize
  isModalOpen : Bool
  prizeToEdit : Option Prize
deriving DecidableEq, Repr

/-- `handleDeletePrize`: the `window.confirm` result is passed in as
`confirmed`.  Declining does nothing; accepting filters out the id and, if
the record open in the form has that id, closes the form
(`handleCloseModal` sets both `isModalOpen := false` and
`prizeToEdit := none`). -/
def handleDeletePrize (s : UiState) (prizeId : String) (confirmed : Bool) : UiState :=
  if confirmed then
    let afterRemove := { s with prizes := s.prizes.filter (fun p => p.id != prizeId) }
    if (match s.prizeToEdit with | some p => p.id == prizeId | none => false) then
      { afterRemove with isModalOpen := false, prizeToEdit := none }
    else afterRemove
  else s

/-! ## The form edit buffer -/

/-- The local state of `PrizeFormModal`. -/
structure FormState where
  name : String
  quantity : Int
  acquisitionDate : String
  photo : String
  notes : String
  category : String
  manufacturer : String
  error : String
deriving DecidableEq, Repr

/-- JavaScript `x?.field || dflt` for a string-valued field: the default is
used when the record is absent or the field is falsy (empty). -/
def orElseStr (v : Option String) (dflt : String) : String :=
  match v with
  | none => dflt
  | some s => if s == "" then dflt else s

/-- JavaScript `x?.field || dflt` for a number-valued field: the default is
used when the record is absent or the field is falsy (zero). -/
def orElseNum (v : Option Int) (dflt : Int) : Int :=
  match v with
  | none => dflt
  | some n => if n == 0 then dflt else n

/-- `resetForm` from `PrizeFormModal`: every field is seeded with
`prizeToEdit?.field || default`; `today` stands for
`new Date().toISOString().split('T')[0]`. -/
def resetForm (prizeToEdit : Option Prize) (today : String) : FormState :=
  { name := orElseStr (prizeToEdit.map Prize.name) ""
  , quantity := orElseNum (prizeToEdit.map Prize.quantity) 1
  , acquisitionDate := orElseStr (prizeToEdit.map Prize.acquisitionDate) today
  , photo := orElseStr (prizeToEdit.map Prize.photo) ""
  , notes := orElseStr (prizeToEdit.map Prize.notes) ""
  , category := orElseStr (prizeToEdit.map Prize.category) "その他"
  , manufacturer := orElseStr (prizeToEdit.map Prize.manufacturer) "指定なし"
  , error := "" }

/-! ## Operational model of the debounced persistence effect

Time is an explicit `Nat` counter of the 500/3000 "time units" of the
source.  A scheduled `setTimeout` callback is a pending entry carrying its
deadline, the generation number it captured and the `prizes` value its
closure captured.  Writes that reach the store are also appended to a
`writes` log so that "exactly one write" is expressible.  The `catch`
around `localStorage.setItem` only resets the status indicator, so the
model lets writes succeed. -/

inductive SaveStatus where
  | idle
  | saving
  | saved
deriving DecidableEq, Repr

/-- A scheduled save callback: deadline, captured generation, captured
collection. -/
structure PendingSave where
  fireAt : Nat
  seq : Nat
  snapshot : List Prize
deriving DecidableEq, Repr

structure AppModel where
  now : Nat
  prizes : List Prize
  hydrated : Bool
  saveSeq : Nat
  saveStatus : SaveStatus
  pendingSave : Option PendingSave
  pendingStatus : Option Nat
  store : Option (List Prize)
  writes : List (List Prize)
deriving DecidableEq, Repr

/-- One run of the persistence `useEffect` body: return early unless
hydrated; otherwise bump the generation counter, show `saving`, clear both
timers and schedule a save 500 units out capturing the current generation
and collection. -/
def runSaveEffect (m : AppModel) : AppModel :=
  if m.hydrated then
    { m with saveSeq := m.saveSeq + 1
           , saveStatus := .saving
           , pendingSave := some { fireAt := m.now + 500, seq := m.saveSeq + 1, snapshot := m.prizes }
           , pendingStatus := none }
  else m

/-- A mutation of the collection (`setPrizes` from any handler): the state
updates and the persistence effect re-runs. -/
def applyChange (m : AppModel) (newPrizes : List Prize) : AppModel :=
  runSaveEffect { m with prizes := newPrizes }

/-- Outcome of the initial `localStorage.getItem`/`JSON.parse` attempt:
nothing stored, an exception (caught), or a successfully migrated list. -/
inductive LoadResult where
  | absent
  | failure
  | success (loaded : List Prize)
deriving DecidableEq, Repr

/-- The initial-load effect: on success the collection is replaced, on
absence or failure it is untouched; the `finally` block sets `hydrated` in
every case, after which the persistence effect re-runs (its dependencies
changed). -/
def applyHydrate (m : AppModel) (r : LoadResult) : AppModel :=
  let afterLoad :=
    match r with
    | .success loaded => { m with prizes := loaded }
    | _ => m
  runSaveEffect { afterLoad with hydrated := true }

/-- Fire the save timer if its deadline has passed: a stale callback (its
captured generation differs from the counter) returns without touching the
store; a current one writes its snapshot, shows `saved` and schedules the
status reset 3000 units after its deadline. -/
def fireSaveIfDue (m : AppModel) : AppModel :=
  match m.pendingSave with
  | none => m
  | some t =>
    if t.fireAt ≤ m.now then
      if t.seq == m.saveSeq then
        { m with pendingSave := none
               , store := some t.snapshot
               , writes := m.writes ++ [t.snapshot]
               , saveStatus := .saved
               , pendingStatus := some (t.fireAt + 3000) }
      else
        { m with pendingSave := none }
    else m

/-- Fire the status-reset timer if due: `saved` reverts to `idle`. -/
def fireStatusIfDue (m : AppModel) : AppModel :=
  match m.pendingStatus with
  | none => m
  | some t =>
    if t ≤ m.now then { m with pendingStatus := none, saveStatus := .idle } else m

/-- Let `d` time units pass and run any callback whose deadline is reached. -/
def elapse (m : AppModel) (d : Nat) : AppModel :=
  fireStatusIfDue (fireSaveIfDue { m with now := m.now + d })

inductive Ev where
  | hydrate (r : LoadResult)
  | change (newPrizes : List Prize)
  | elapse (d : Nat)
  | unmount
deriving Repr

/-- The effect cleanup on unmount clears both timers. -/
def cancelTimers (m : AppModel) : AppModel :=
  { m with pendingSave := none, pendingStatus := none }

def step (m : AppModel) : Ev → AppModel
  | .hydrate r => applyHydrate m r
  | .change ps => applyChange m ps
  | .elapse d => elapse m d
  | .unmount => cancelTimers m

def run (m : AppModel) : List Ev → AppModel
  | [] => m
  | e :: es => run (step m e) es

/-- The component's state at mount, before any effect has run; `store0` is
whatever localStorage holds under the key. -/
def initModel (store0 : Option (List Prize)) : AppModel :=
  { now := 0, prizes := [], hydrated := false, saveSeq := 0, saveStatus := .idle
  , pendingSave := none, pendingStatus := none, store := store0, writes := [] }

/-- Is an event the hydration event? -/
def isHydrateEv : Ev → Bool
  | .hydrate _ => true
  | _ => false

/-- Event list of a burst: for each `(g, c)` in `rest`, wait `g` units then
change the collection to `c`; finally wait `dFinal` units. -/
def burstTrace : List (Nat × List Prize) → Nat → List Ev
  | [], dFinal => [.elapse dFinal]
  | (g, c) :: rest, dFinal => .elapse g :: .change c :: burstTrace rest dFinal

/-- Last collection value of a burst beginning with `c`. -/
def lastState (c : List Prize) : List (Nat × List Prize) → List Prize
  | [] => c
  | (_, c2) :: rest => lastState c2 rest

/-! ## Lemmas about object fields -/

lemma lookupField_setField_self (fs : List (String × JsVal)) (key : String) (v : JsVal) :
    lookupField (setField fs key v) key = some v := by
  induction fs with
  | nil => simp [setField, lookupField]
  | cons kv rest ih =>
    obtain ⟨k, w⟩ := kv
    by_cases h : k = key
    · simp [setField, lookupField, h]
    · simp [setField, lookupField, h, ih]

lemma lookupField_setField_ne (fs : List (String × JsVal)) (key key2 : String) (v : JsVal)
    (h : key ≠ key2) :
    lookupField (setField fs key v) key2 = lookupField fs key2 := by
  induction fs with
  | nil => simp [setField, lookupField, h]
  | cons kv rest ih =>
    obtain ⟨k, w⟩ := kv
    by_cases hk : k = key
    · subst hk
      simp [setField, lookupField, h]
    · simp [setField, lookupField, hk, ih]

lemma setField_lookup_eq (fs : List (String × JsVal)) (key : String) (v : JsVal)
    (h : lookupField fs key = some v) : setField fs key v = fs := by
  induction fs with
  | nil => simp [lookupField] at h
  | cons kv rest ih =>
    obtain ⟨k, w⟩ := kv
    by_cases hk : k = key
    · subst hk
      simp [lookupField] at h
      simp [setField, h]
    · simp [lookupField, hk] at h
      simp [setField, hk, ih h]

lemma getField_jobj (fs : List (String × JsVal)) (key : String) :
    getField (.jobj fs) key = (lookupField fs key).getD .jundefined := rfl

lemma ownFields_jobj (fs : List (String × JsVal)) : ownFields (.jobj fs) = fs := rfl

/-! ## Lemmas about `migrateElem` -/

lemma migrateElem_category (p : JsVal) :
    getField (migrateElem p) "category" = jsOr (getField p "category") (.jstr "その他") := by
  show (lookupField _ "category").getD .jundefined = _
  rw [migrateElem, ownFields_jobj, lookupField_setField_ne _ _ _ _ (by decide),
    lookupField_setField_self]
  rfl

lemma migrateElem_quantity (p : JsVal) :
    getField (migrateElem p) "quantity" = jsCoalesce (getField p "quantity") (.jnum 1) := by
  show (lookupField _ "quantity").getD .jundefined = _
  rw [migrateElem, ownFields_jobj, lookupField_setField_self]
  rfl

lemma jsOr_of_truthy {a : JsVal} (b : JsVal) (h : truthy a = true) : jsOr a b = a := by
  simp [jsOr, h]

lemma jsOr_of_falsy {a : JsVal} (b : JsVal) (h : truthy a = false) : jsOr a b = b := by
  simp [jsOr, h]

lemma jsCoalesce_of_nullish {a : JsVal} (b : JsVal) (h : nullish a = true) :
    jsCoalesce a b = b := by
  simp [jsCoalesce, h]

lemma jsCoalesce_of_present {a : JsVal} (b : JsVal) (h : nullish a = false) :
    jsCoalesce a b = a := by
  simp [jsCoalesce, h]

lemma truthy_jsOr_fallback (a : JsVal) : truthy (jsOr a (.jstr "その他")) = true := by
  unfold jsOr
  split
  · assumption
  · rfl

lemma nullish_jsCoalesce_one (a : JsVal) : nullish (jsCoalesce a (.jnum 1)) = false := by
  unfold jsCoalesce
  split
  · rfl
  · simp_all

lemma truthy_migrateElem (p : JsVal) : truthy (migrateElem p) = true := rfl

/-- A `jobj` whose `category` is already truthy and whose `quantity` is
already present is a fixed point of `migrateElem`. -/
lemma migrateElem_obj_of_lookup (fs : List (String × JsVal)) (c q : JsVal)
    (hc : lookupField fs "category" = some c) (hq : lookupField fs "quantity" = some q)
    (htc : truthy c = true) (hnq : nullish q = false) :
    migrateElem (.jobj fs) = .jobj fs := by
  have h1 : getField (.jobj fs) "category" = c := by simp [getField, ownFields, hc]
  have h2 : getField (.jobj fs) "quantity" = q := by simp [getField, ownFields, hq]
  unfold migrateElem
  rw [show ownFields (.jobj fs) = fs from rfl, h1, h2, jsOr_of_truthy _ htc,
    jsCoalesce_of_present _ hnq, setField_lookup_eq _ _ _ hc, setField_lookup_eq _ _ _ hq]

lemma migrateElem_fixed (p : JsVal) : migrateElem (migrateElem p) = migrateElem p := by
  have hc : lookupField (setField
      (setField (ownFields p) "category" (jsOr (getField p "category") (.jstr "その他")))
      "quantity" (jsCoalesce (getField p "quantity") (.jnum 1))) "category"
      = some (jsOr (getField p "category") (.jstr "その他")) := by
    rw [lookupField_setField_ne _ _ _ _ (by decide), lookupField_setField_self]
  have hq : lookupField (setField
      (setField (ownFields p) "category" (jsOr (getField p "category") (.jstr "その他")))
      "quantity" (jsCoalesce (getField p "quantity") (.jnum 1))) "quantity"
      = some (jsCoalesce (getField p "quantity") (.jnum 1)) :=
    lookupField_setField_self _ _ _
  show migrateElem (.jobj _) = _
  rw [migrateElem_obj_of_lookup _ _ _ hc hq (truthy_jsOr_fallback _) (nullish_jsCoalesce_one _)]
  rfl

/-! ## Claim C3 -/

/-- C3 counterexample: the claim says every non-null/undefined element is
kept, but `filter(Boolean)` also drops falsy non-nullish elements — the
number `0` is neither null nor undefined, yet migrating `[0]` yields the
empty list. -/
theorem migratePrizes_claim_counterexample :
    nullish (.jnum 0) = false ∧ migratePrizes (.jarr [.jnum 0]) = [] :=
  ⟨rfl, rfl⟩

/-- C3 (amended): for every decoded input value, `migratePrizes` returns the
empty sequence when the input is not list-shaped; otherwise it keeps exactly
the truthy elements (falsy ones — null, undefined, false, 0, the empty
string — are dropped), replaces a falsy category with the fallback
`'その他'` and keeps a truthy one, replaces an absent (null/undefined)
quantity with 1 and keeps a present one — in particular an explicit
quantity of 0 is preserved as 0. -/
theorem migratePrizes_normalizes :
    (∀ v : JsVal, isListShaped v = false → migratePrizes v = []) ∧
    (∀ elems : List JsVal,
      (migratePrizes (.jarr elems)).length = (elems.filter truthy).length) ∧
    (∀ elems : List JsVal, ∀ p ∈ elems, truthy p = true →
      migrateElem p ∈ migratePrizes (.jarr elems)) ∧
    (∀ p : JsVal, truthy (getField p "category") = false →
      getField (migrateElem p) "category" = .jstr "その他") ∧
    (∀ p : JsVal, truthy (getField p "category") = true →
      getField (migrateElem p) "category" = getField p "category") ∧
    (∀ p : JsVal, nullish (getField p "quantity") = true →
      getField (migrateElem p) "quantity" = .jnum 1) ∧
    (∀ p : JsVal, nullish (getField p "quantity") = false →
      getField (migrateElem p) "quantity" = getField p "quantity") ∧
    (∀ p : JsVal, getField p "quantity" = .jnum 0 →
      getField (migrateElem p) "quantity" = .jnum 0) := by
  refine ⟨?_, ?_, ?_, ?_, ?_, ?_, ?_, ?_⟩
  · intro v h
    cases v <;> simp_all [isListShaped, migratePrizes]
  · intro elems
    simp [migratePrizes]
  · intro elems p hp ht
    simp only [migratePrizes]
    exact List.mem_map_of_mem _ (List.mem_filter.mpr ⟨hp, ht⟩)
  · intro p h
    rw [migrateElem_category, jsOr_of_falsy _ h]
  · intro p h
    rw [migrateElem_category, jsOr_of_truthy _ h]
  · intro p h
    rw [migrateElem_quantity, jsCoalesce_of_nullish _ h]
  · intro p h
    rw [migrateElem_quantity, jsCoalesce_of_present _ h]
  · intro p h
    rw [migrateElem_quantity, h]
    rfl

/-- Witness for C3 (amended) at concrete inputs: a non-list input yields
`[]`; a record with no category gets `'その他'`; a record with an explicit
quantity of 0 keeps it. -/
theorem migratePrizes_normalizes_witness :
    migratePrizes (.jstr "oops") = [] ∧
    getField (migrateElem (.jobj [("id", .jstr "a")])) "category" = .jstr "その他" ∧
    getField (migrateElem (.jobj [("id", .jstr "a")])) "quantity" = .jnum 1 ∧
    getField (migrateElem (.jobj [("category", .jstr "ぬいぐるみ"), ("quantity", .jnum 0)]))
      "quantity" = .jnum 0 :=
  ⟨migratePrizes_normalizes.1 _ rfl,
   migratePrizes_normalizes.2.2.2.1 _ rfl,
   migratePrizes_normalizes.2.2.2.2.2.1 _ rfl,
   migratePrizes_normalizes.2.2.2.2.2.2.2 _ rfl⟩

/-! ## Claim C10 -/

/-- C10: `migratePrizes` is idempotent — for every list-shaped input,
migrating the (re-wrapped) output again returns it unchanged: migrated
records are fixed points of the migration. -/
theorem migratePrizes_idempotent (v : JsVal) (h : isListShaped v = true) :
    migratePrizes (.jarr (migratePrizes v)) = migratePrizes v := by
  cases v with
  | jarr elems =>
    show ((List.map migrateElem (elems.filter truthy)).filter truthy).map migrateElem = _
    rw [List.filter_eq_self.mpr (by
      intro a ha
      obtain ⟨b, _, rfl⟩ := List.mem_map.mp ha
      exact truthy_migrateElem b)]
    rw [List.map_map]
    exact List.map_congr_left (fun a _ => migrateElem_fixed a)
  | jnull => simp [isListShaped] at h
  | jundefined => simp [isListShaped] at h
  | jbool b => simp [isListShaped] at h
  | jnum n => simp [isListShaped] at h
  | jstr s => simp [isListShaped] at h
  | jobj fs => simp [isListShaped] at h

/-- Witness for C10 at a concrete list-shaped input holding a primitive and
a partial record. -/
theorem migratePrizes_idempotent_witness :
    isListShaped (.jarr [.jnum 7, .jobj [("id", .jstr "x")]]) = true ∧
    migratePrizes (.jarr (migratePrizes (.jarr [.jnum 7, .jobj [("id", .jstr "x")]]))) =
      migratePrizes (.jarr [.jnum 7, .jobj [("id", .jstr "x")]]) :=
  ⟨rfl, migratePrizes_idempotent _ rfl⟩

/-! ## Lemmas about `findIndex` -/

lemma findIndex_eq_of_first {α : Type} (pred : α → Bool) :
    ∀ (l : List α) (i : Nat) (hi : i < l.length),
      pred l[i] = true →
      (∀ (j : Nat) (hj : j < l.length), j < i → pred l[j] = false) →
      findIndex l pred = i := by
  intro l
  induction l with
  | nil => intro i hi; simp at hi
  | cons a rest ih =>
    intro i hi hmatch hfirst
    cases i with
    | zero =>
      simp only [List.getElem_cons_zero] at hmatch
      simp [findIndex, hmatch]
    | succ i2 =>
      have ha : pred a = false := by
        have := hfirst 0 (by simp) (Nat.succ_pos _)
        simpa using this
      have hrec : findIndex rest pred = i2 := by
        apply ih i2 (by simpa using hi)
        · simpa using hmatch
        · intro j hj hji
          have := hfirst (j + 1) (by simpa using Nat.succ_lt_succ hj) (Nat.succ_lt_succ hji)
          simpa using this
      simp only [findIndex, ha, Bool.false_eq_true, if_false, hrec]
      have : ¬ ((i2 : Int) < 0) := by omega
      simp [this]

lemma findIndex_neg {α : Type} (pred : α → Bool) :
    ∀ l : List α, (∀ p ∈ l, pred p = false) → findIndex l pred = -1 := by
  intro l
  induction l with
  | nil => intro; rfl
  | cons a rest ih =>
    intro h
    have ha := h a (by simp)
    have hr := ih (fun p hp => h p (by simp [hp]))
    simp [findIndex, ha, hr]

/-! ## Claim C4 -/

/-- C4: saving a record whose identifier already occurs replaces the record
at that identifier's (first) existing position in place — same index, the
collection length is unchanged, and every other position is untouched;
saving a record whose identifier does not occur appends it at the end with
all prior records unchanged. -/
theorem handleSavePrize_spec (prev : List Prize) (prize : Prize) :
    (∀ (i : Nat) (hi : i < prev.length),
      prev[i].id = prize.id →
      (∀ (j : Nat) (hj : j < prev.length), j < i → prev[j].id ≠ prize.id) →
      handleSavePrize prev prize = prev.set i prize ∧
      (handleSavePrize prev prize).length = prev.length ∧
      (∀ hk : i < (handleSavePrize prev prize).length, (handleSavePrize prev prize)[i] = prize) ∧
      (∀ (j : Nat) (hj : j < prev.length), j ≠ i →
        ∀ hk : j < (handleSavePrize prev prize).length,
          (handleSavePrize prev prize)[j] = prev[j])) ∧
    ((∀ p ∈ prev, p.id ≠ prize.id) →
      handleSavePrize prev prize = prev ++ [prize] ∧
      (∀ (j : Nat) (hj : j < prev.length),
        ∀ hk : j < (handleSavePrize prev prize).length,
          (handleSavePrize prev prize)[j] = prev[j])) := by
  constructor
  · intro i hi hmatch hfirst
    have hfi : findIndex prev (fun p => p.id == prize.id) = i := by
      apply findIndex_eq_of_first _ prev i hi
      · simp [hmatch]
      · intro j hj hji
        simp [hfirst j hj hji]
    have heq : handleSavePrize prev prize = prev.set i prize := by
      unfold handleSavePrize
      rw [hfi, if_pos (by omega)]
      norm_num
    refine ⟨heq, by rw [heq]; exact List.length_set _ _ _, ?_, ?_⟩
    · intro hk
      simp [heq, List.getElem_set]
    · intro j hj hji hk
      simp [heq, List.getElem_set, Ne.symm hji]
  · intro hnone
    have hfi : findIndex prev (fun p => p.id == prize.id) = -1 := by
      apply findIndex_neg
      intro p hp
      simp [hnone p hp]
    have heq : handleSavePrize prev prize = prev ++ [prize] := by
      unfold handleSavePrize
      rw [hfi, if_neg (by omega)]
    refine ⟨heq, ?_⟩
    intro j hj hk
    simp only [heq]
    exact List.getElem_append_left hj

/-- Witness for C4: replacing the record with id `"2"` in a two-element
collection keeps the length and the position; saving a fresh id appends. -/
theorem handleSavePrize_spec_witness :
    handleSavePrize
        [{ id := "1", name := "Alpha", category := "その他", manufacturer := "指定なし",
           quantity := 1, acquisitionDate := "2024-01-01", photo := "", notes := "" },
         { id := "2", name := "Beta", category := "その他", manufacturer := "指定なし",
           quantity := 1, acquisitionDate := "2024-06-01", photo := "", notes := "" }]
        { id := "2", name := "Beta2", category := "その他", manufacturer := "指定なし",
          quantity := 3, acquisitionDate := "2024-06-01", photo := "", notes := "" }
      = [{ id := "1", name := "Alpha", category := "その他", manufacturer := "指定なし",
           quantity := 1, acquisitionDate := "2024-01-01", photo := "", notes := "" },
         { id := "2", name := "Beta2", category := "その他", manufacturer := "指定なし",
           quantity := 3, acquisitionDate := "2024-06-01", photo := "", notes := "" }] ∧
    handleSavePrize
        [{ id := "1", name := "Alpha", category := "その他", manufacturer := "指定なし",
           quantity := 1, acquisitionDate := "2024-01-01", photo := "", notes := "" }]
        { id := "9", name := "New", category := "その他", manufacturer := "指定なし",
          quantity := 1, acquisitionDate := "2024-07-01", photo := "", notes := "" }
      = [{ id := "1", name := "Alpha", category := "その他", manufacturer := "指定なし",
           quantity := 1, acquisitionDate := "2024-01-01", photo := "", notes := "" },
         { id := "9", name := "New", category := "その他", manufacturer := "指定なし",
           quantity := 1, acquisitionDate := "2024-07-01", photo := "", notes := "" }] := by
  constructor
  · have h := (handleSavePrize_spec
      [{ id := "1", name := "Alpha", category := "その他", manufacturer := "指定なし",
         quantity := 1, acquisitionDate := "2024-01-01", photo := "", notes := "" },
       { id := "2", name := "Beta", category := "その他", manufacturer := "指定なし",
         quantity := 1, acquisitionDate := "2024-06-01", photo := "", notes := "" }]
      { id := "2", name := "Beta2", category := "その他", manufacturer := "指定なし",
        quantity := 3, acquisitionDate := "2024-06-01", photo := "", notes := "" }).1
      1 (by decide) (by decide) (by decide)
    exact h.1
  · have h := (handleSavePrize_spec
      [{ id := "1", name := "Alpha", category := "その他", manufacturer := "指定なし",
         quantity := 1, acquisitionDate := "2024-01-01", photo := "", notes := "" }]
      { id := "9", name := "New", category := "その他", manufacturer := "指定なし",
        quantity := 1, acquisitionDate := "2024-07-01", photo := "", notes := "" }).2
      (by decide)
    exact h.1

/-! ## Claim C5 -/

lemma handleDeletePrize_prizes (s : UiState) (prizeId : String) :
    (handleDeletePrize s prizeId true).prizes = s.prizes.filter (fun p => p.id != prizeId) := by
  unfold handleDeletePrize
  rw [if_pos rfl]
  dsimp only
  split <;> rfl

lemma filter_not_length {α : Type} (pred : α → Bool) :
    ∀ l : List α, (l.filter (fun a => !(pred a))).length + l.countP pred = l.length := by
  intro l
  induction l with
  | nil => rfl
  | cons a rest ih =>
    by_cases h : pred a
    · simp only [List.filter_cons, List.countP_cons, h]
      simp
      omega
    · simp only [List.filter_cons, List.countP_cons, h]
      simp [h]
      omega

lemma countP_id_eq_one (prizeId : String) :
    ∀ l : List Prize, (l.map Prize.id).Nodup → (∃ p ∈ l, p.id = prizeId) →
      l.countP (fun p => p.id == prizeId) = 1 := by
  intro l
  induction l with
  | nil =>
    rintro _ ⟨p, hp, _⟩
    simp at hp
  | cons a rest ih =>
    intro hnd hex
    rw [List.map_cons, List.nodup_cons] at hnd
    obtain ⟨hna, hndr⟩ := hnd
    by_cases ha : a.id = prizeId
    · have hrest : rest.countP (fun p => p.id == prizeId) = 0 := by
        rw [List.countP_eq_zero]
        intro p hp
        simp only [beq_iff_eq]
        intro hcontra
        exact hna (by rw [ha, ← hcontra]; exact List.mem_map_of_mem _ hp)
      simp [List.countP_cons, ha, hrest]
    · obtain ⟨p, hp, hpid⟩ := hex
      rcases List.mem_cons.mp hp with rfl | hp2
      · exact absurd hpid ha
      · have := ih hndr ⟨p, hp2, hpid⟩
        simp [List.countP_cons, ha, this]

/-- C5: declining the delete confirmation leaves the state unchanged;
accepting removes exactly one record with the matching identifier (under
the identifier-uniqueness invariant, with the identifier present), keeps
every other record, and closes the form if the deleted record was open in
it. -/
theorem handleDeletePrize_spec (s : UiState) (prizeId : String) :
    handleDeletePrize s prizeId false = s ∧
    ((s.prizes.map Prize.id).Nodup → (∃ p ∈ s.prizes, p.id = prizeId) →
      (handleDeletePrize s prizeId true).prizes.length + 1 = s.prizes.length) ∧
    (∀ p ∈ (handleDeletePrize s prizeId true).prizes, p.id ≠ prizeId) ∧
    (∀ p ∈ s.prizes, p.id ≠ prizeId → p ∈ (handleDeletePrize s prizeId true).prizes) ∧
    (∀ p : Prize, s.prizeToEdit = some p → p.id = prizeId →
      (handleDeletePrize s prizeId true).isModalOpen = false ∧
      (handleDeletePrize s prizeId true).prizeToEdit = none) := by
  refine ⟨rfl, ?_, ?_, ?_, ?_⟩
  · intro hnd hex
    rw [handleDeletePrize_prizes]
    have h1 := filter_not_length (fun p => p.id == prizeId) s.prizes
    have h2 := countP_id_eq_one prizeId s.prizes hnd hex
    have h3 : (fun p : Prize => p.id != prizeId) = (fun p : Prize => !(p.id == prizeId)) := by
      funext p
      simp [bne]
    rw [h3]
    omega
  · intro p hp
    rw [handleDeletePrize_prizes] at hp
    have := (List.mem_filter.mp hp).2
    simpa using this
  · intro p hp hne
    rw [handleDeletePrize_prizes]
    exact List.mem_filter.mpr ⟨hp, by simpa using hne⟩
  · intro p hedit hpid
    unfold handleDeletePrize
    rw [if_pos rfl, hedit]
    simp [hpid]

/-- Witness for C5 at a concrete two-record state: declining changes
nothing; accepting on id `"2"` with the record open in the form drops that
record and closes the form. -/
theorem handleDeletePrize_spec_witness :
    handleDeletePrize
        { prizes := [{ id := "1", name := "Alpha", category := "その他",
                       manufacturer := "指定なし", quantity := 1,
                       acquisitionDate := "2024-01-01", photo := "", notes := "" },
                     { id := "2", name := "Beta", category := "その他",
                       manufacturer := "指定なし", quantity := 1,
                       acquisitionDate := "2024-06-01", photo := "", notes := "" }],
          isModalOpen := true,
          prizeToEdit := some { id := "2", name := "Beta", category := "その他",
                                manufacturer := "指定なし", quantity := 1,
                                acquisitionDate := "2024-06-01", photo := "", notes := "" } }
        "2" false
      = { prizes := [{ id := "1", name := "Alpha", category := "その他",
                       manufacturer := "指定なし", quantity := 1,
                       acquisitionDate := "2024-01-01", photo := "", notes := "" },
                     { id := "2", name := "Beta", category := "その他",
                       manufacturer := "指定なし", quantity := 1,
                       acquisitionDate := "2024-06-01", photo := "", notes := "" }],
          isModalOpen := true,
          prizeToEdit := some { id := "2", name := "Beta", category := "その他",
                                manufacturer := "指定なし", quantity := 1,
                                acquisitionDate := "2024-06-01", photo := "", notes := "" } } ∧
    (handleDeletePrize
        { prizes := [{ id := "1", name := "Alpha", category := "その他",
                       manufacturer := "指定なし", quantity := 1,
                       acquisitionDate := "2024-01-01", photo := "", notes := "" },
                     { id := "2", name := "Beta", category := "その他",
                       manufacturer := "指定なし", quantity := 1,
                       acquisitionDate := "2024-06-01", photo := "", notes := "" }],
          isModalOpen := true,
          prizeToEdit := some { id := "2", name := "Beta", category := "その他",
                                manufacturer := "指定なし", quantity := 1,
                                acquisitionDate := "2024-06-01", photo := "", notes := "" } }
        "2" true).prizes.length + 1 = 2 ∧
    (handleDeletePrize
        { prizes := [{ id := "1", name := "Alpha", category := "その他",
                       manufacturer := "指定なし", quantity := 1,
                       acquisitionDate := "2024-01-01", photo := "", notes := "" },
                     { id := "2", name := "Beta", category := "その他",
                       manufacturer := "指定なし", quantity := 1,
                       acquisitionDate := "2024-06-01", photo := "", notes := "" }],
          isModalOpen := true,
          prizeToEdit := some { id := "2", name := "Beta", category := "その他",
                                manufacturer := "指定なし", quantity := 1,
                                acquisitionDate := "2024-06-01", photo := "", notes := "" } }
        "2" true).isModalOpen = false := by
  refine ⟨(handleDeletePrize_spec _ "2").1, (handleDeletePrize_spec _ "2").2.1 (by decide) ?_, ?_⟩
  · exact ⟨{ id := "2", name := "Beta", category := "その他", manufacturer := "指定なし",
             quantity := 1, acquisitionDate := "2024-06-01", photo := "", notes := "" },
      by decide, rfl⟩
  · exact ((handleDeletePrize_spec _ "2").2.2.2.2 _ rfl rfl).1

/-! ## Lemmas about the stable sort -/

lemma insertLe_perm {α : Type} (le : α → α → Bool) (a : α) :
    ∀ l : List α, (insertLe le a l).Perm (a :: l) := by
  intro l
  induction l with
  | nil => exact List.Perm.refl _
  | cons b rest ih =>
    unfold insertLe
    split
    · exact List.Perm.refl _
    · exact List.Perm.trans (List.Perm.cons b ih) (List.Perm.swap a b rest)

lemma stableSort_perm {α : Type} (le : α → α → Bool) :
    ∀ l : List α, (stableSort le l).Perm l := by
  intro l
  induction l with
  | nil => exact List.Perm.refl _
  | cons a rest ih =>
    exact List.Perm.trans (insertLe_perm le a _) (List.Perm.cons a ih)

lemma mem_insertLe {α : Type} (le : α → α → Bool) (a : α) (l : List α) (x : α) :
    x ∈ insertLe le a l ↔ x = a ∨ x ∈ l := by
  have := (insertLe_perm le a l).mem_iff (a := x)
  simpa using this

lemma insertLe_sorted {α : Type} (le : α → α → Bool)
    (htrans : ∀ a b c, le a b = true → le b c = true → le a c = true)
    (htotal : ∀ a b, le a b = true ∨ le b a = true) (a : α) :
    ∀ l : List α, List.Pairwise (fun x y => le x y = true) l →
      List.Pairwise (fun x y => le x y = true) (insertLe le a l) := by
  intro l
  induction l with
  | nil => intro _; simp [insertLe]
  | cons b rest ih =>
    intro hp
    rw [List.pairwise_cons] at hp
    obtain ⟨hb, hrest⟩ := hp
    unfold insertLe
    split
    · rename_i hab
      rw [List.pairwise_cons]
      refine ⟨?_, List.pairwise_cons.mpr ⟨hb, hrest⟩⟩
      intro x hx
      rcases List.mem_cons.mp hx with rfl | hx2
      · exact hab
      · exact htrans a b x hab (hb x hx2)
    · rename_i hab
      have hba : le b a = true := by
        rcases htotal a b with h | h
        · exact absurd h hab
        · exact h
      rw [List.pairwise_cons]
      refine ⟨?_, ih hrest⟩
      intro x hx
      rcases (mem_insertLe le a rest x).mp hx with rfl | hx2
      · exact hba
      · exact hb x hx2

lemma stableSort_sorted {α : Type} (le : α → α → Bool)
    (htrans : ∀ a b c, le a b = true → le b c = true → le a c = true)
    (htotal : ∀ a b, le a b = true ∨ le b a = true) :
    ∀ l : List α, List.Pairwise (fun x y => le x y = true) (stableSort le l) := by
  intro l
  induction l with
  | nil => simp [stableSort]
  | cons a rest ih => exact insertLe_sorted le htrans htotal a _ ih

lemma insertLe_filter_key {α : Type} (k : α → Nat) (K : Nat) (a : α) :
    ∀ l : List α,
      (insertLe (fun x y => decide (k y ≤ k x)) a l).filter (fun x => k x == K)
        = if (k a == K) = true then a :: l.filter (fun x => k x == K)
          else l.filter (fun x => k x == K) := by
  intro l
  induction l with
  | nil => simp [insertLe, List.filter_cons]
  | cons b rest ih =>
    unfold insertLe
    split
    · rw [List.filter_cons]
    · rename_i hab
      have hkb : k b ≠ k a := by
        simp only [decide_eq_true_eq] at hab
        omega
      rw [List.filter_cons, ih, List.filter_cons]
      by_cases hA : k a = K
      · have hB : (k b == K) = false := by
          simp only [beq_eq_false_iff_ne, ne_eq]
          omega
        simp [hA, hB]
      · by_cases hBK : k b = K
        · simp [hA, hBK]
        · simp [hA, hBK]

lemma stableSort_filter_key {α : Type} (k : α → Nat) (K : Nat) :
    ∀ l : List α,
      (stableSort (fun x y => decide (k y ≤ k x)) l).filter (fun x => k x == K)
        = l.filter (fun x => k x == K) := by
  intro l
  induction l with
  | nil => rfl
  | cons a rest ih =>
    show (insertLe (fun x y => decide (k y ≤ k x)) a
        (stableSort (fun x y => decide (k y ≤ k x)) rest)).filter (fun x => k x == K) = _
    rw [insertLe_filter_key, ih, List.filter_cons]

/-! ## Claim C7 -/

/-- Example record with acquisition date 2024-01-01. -/
def exA : Prize :=
  { id := "1", name := "Alpha", category := "その他", manufacturer := "指定なし",
    quantity := 1, acquisitionDate := "2024-01-01", photo := "", notes := "" }

/-- Example record with acquisition date 2024-06-01. -/
def exB : Prize :=
  { id := "2", name := "Beta", category := "ぬいぐるみ", manufacturer := "指定なし",
    quantity := 1, acquisitionDate := "2024-06-01", photo := "", notes := "" }

/-- Example record with acquisition date 2023-12-01. -/
def exC : Prize :=
  { id := "3", name := "Gamma", category := "フィギュア", manufacturer := "指定なし",
    quantity := 1, acquisitionDate := "2023-12-01", photo := "", notes := "" }

lemma dateDescLe_trans (a b c : Prize) (hab : dateDescLe a b = true)
    (hbc : dateDescLe b c = true) : dateDescLe a c = true := by
  simp only [dateDescLe, decide_eq_true_eq] at *
  omega

lemma dateDescLe_total (a b : Prize) : dateDescLe a b = true ∨ dateDescLe b a = true := by
  simp only [dateDescLe, decide_eq_true_eq]
  omega

/-- C7: under the default `date-desc` sort the view model is ordered by
descending acquisition date (adjacent-pairwise, hence globally), it is a
permutation of the filtered collection, records with equal dates keep
their original relative order, and on the three concrete dates of the
claim the resulting order is 2024-06-01, 2024-01-01, 2023-12-01. -/
theorem dateDescSort_spec :
    (∀ (prizes : List Prize) (searchTerm selectedCategory : String),
      List.Pairwise (fun a b => dateKey b.acquisitionDate ≤ dateKey a.acquisitionDate)
        (filteredAndSortedPrizes prizes searchTerm selectedCategory .dateDesc) ∧
      (filteredAndSortedPrizes prizes searchTerm selectedCategory .dateDesc).Perm
        (prizes.filter
          (prizeMatchesFilter (toLowerStr (trimStr searchTerm)) selectedCategory)) ∧
      (∀ K : Nat,
        (filteredAndSortedPrizes prizes searchTerm selectedCategory .dateDesc).filter
            (fun p => dateKey p.acquisitionDate == K)
          = (prizes.filter
              (prizeMatchesFilter (toLowerStr (trimStr searchTerm)) selectedCategory)).filter
              (fun p => dateKey p.acquisitionDate == K))) ∧
    filteredAndSortedPrizes [exA, exB, exC] "" "すべて" .dateDesc = [exB, exA, exC] := by
  constructor
  · intro prizes searchTerm selectedCategory
    refine ⟨?_, ?_, ?_⟩
    · have h := stableSort_sorted dateDescLe dateDescLe_trans dateDescLe_total
        (prizes.filter
          (prizeMatchesFilter (toLowerStr (trimStr searchTerm)) selectedCategory))
      refine List.Pairwise.imp ?_ h
      intro a b hab
      simpa [dateDescLe] using hab
    · exact stableSort_perm dateDescLe _
    · intro K
      exact stableSort_filter_key (fun p : Prize => dateKey p.acquisitionDate) K _
  · decide

/-! ## Claim C8 -/

/-- C8 counterexample: the claim says the view model keeps exactly the
records whose name contains the search term case-insensitively, but the
code matches against the trimmed search term — with search term `" alpha"`
the record named `"Alpha"` is kept although its name does not contain
`" alpha"` case-insensitively. -/
theorem filter_claim_counterexample :
    exA ∈ filteredAndSortedPrizes [exA] " alpha" "すべて" .dateDesc ∧
    specNameMatch exA.name " alpha" = false := by
  decide

lemma filteredAndSortedPrizes_perm_filter (prizes : List Prize)
    (searchTerm selectedCategory : String) (so : SortOrder) :
    (filteredAndSortedPrizes prizes searchTerm selectedCategory so).Perm
      (prizes.filter
        (prizeMatchesFilter (toLowerStr (trimStr searchTerm)) selectedCategory)) := by
  cases so
  · exact stableSort_perm dateDescLe _
  · exact stableSort_perm nameAscLe _
  · exact stableSort_perm nameDescLe _

/-- C8 (amended): for every collection, search term, category filter, and
sort order, the view model keeps exactly the records whose name contains
the TRIMMED search term case-insensitively and whose category equals the
filter (the sentinel `'すべて'` matches every category); a category filter
matching no current record yields an empty projection (the projection is a
pure derivation, so the underlying collection is untouched by
construction). -/
theorem filteredPrizes_membership :
    (∀ (prizes : List Prize) (searchTerm selectedCategory : String) (so : SortOrder)
        (p : Prize),
      p ∈ filteredAndSortedPrizes prizes searchTerm selectedCategory so ↔
        p ∈ prizes ∧
        strIncludes (toLowerStr p.name) (toLowerStr (trimStr searchTerm)) = true ∧
        (selectedCategory = "すべて" ∨ p.category = selectedCategory)) ∧
    (∀ (prizes : List Prize) (searchTerm selectedCategory : String) (so : SortOrder),
      selectedCategory ≠ "すべて" → (∀ q ∈ prizes, q.category ≠ selectedCategory) →
      filteredAndSortedPrizes prizes searchTerm selectedCategory so = []) := by
  constructor
  · intro prizes searchTerm selectedCategory so p
    rw [(filteredAndSortedPrizes_perm_filter prizes searchTerm selectedCategory so).mem_iff,
      List.mem_filter]
    simp [prizeMatchesFilter]
  · intro prizes searchTerm selectedCategory so hne hnone
    have hfil : prizes.filter
        (prizeMatchesFilter (toLowerStr (trimStr searchTerm)) selectedCategory) = [] := by
      rw [List.filter_eq_nil_iff]
      intro q hq
      simp only [prizeMatchesFilter, Bool.and_eq_true, Bool.or_eq_true, beq_iff_eq, not_and,
        not_or]
      intro _
      exact ⟨hne, hnone q hq⟩
    cases so <;>
      simp only [filteredAndSortedPrizes, hfil] <;> rfl

/-- Witness for C8 (amended): a category filter matching nothing yields the
empty projection; with the sentinel category the record is kept. -/
theorem filteredPrizes_membership_witness :
    filteredAndSortedPrizes [exA] "" "ぬいぐるみ" .dateDesc = [] ∧
    exA ∈ filteredAndSortedPrizes [exA] "" "すべて" .dateDesc := by
  constructor
  · exact filteredPrizes_membership.2 [exA] "" "ぬいぐるみ" .dateDesc (by decide) (by decide)
  · exact (filteredPrizes_membership.1 [exA] "" "すべて" .dateDesc exA).mpr
      ⟨by decide, by decide, Or.inl rfl⟩

/-! ## Claim C9 -/

/-- C9 counterexample: the claim says the edit buffer is seeded from the
record's field values, but the seeding uses `prizeToEdit?.quantity || 1`,
so a record whose explicit quantity is 0 seeds the buffer with 1, not with
its own value. -/
theorem resetForm_claim_counterexample :
    (resetForm (some { exA with quantity := 0 }) "2025-05-05").quantity = 1 ∧
    ({ exA with quantity := 0 } : Prize).quantity = 0 := by
  decide

/-- C9 (amended): when adding (`prizeToEdit` absent) the buffer is seeded
with blank defaults, quantity 1 and acquisition date = today; when editing,
each field is seeded with `record.field || default`, so name, photo and
notes are always taken from the record (their default is the empty string),
while a falsy quantity (0), acquisition date, category or manufacturer
falls back to the add-mode default (1, today, `'その他'`, `'指定なし'`)
instead of the record's value. -/
theorem resetForm_spec (p : Prize) (today : String) :
    resetForm none today =
      { name := "", quantity := 1, acquisitionDate := today, photo := "", notes := ""
      , category := "その他", manufacturer := "指定なし", error := "" } ∧
    (resetForm (some p) today).name = p.name ∧
    (resetForm (some p) today).photo = p.photo ∧
    (resetForm (some p) today).notes = p.notes ∧
    (resetForm (some p) today).error = "" ∧
    (p.quantity ≠ 0 → (resetForm (some p) today).quantity = p.quantity) ∧
    (p.quantity = 0 → (resetForm (some p) today).quantity = 1) ∧
    (p.acquisitionDate ≠ "" → (resetForm (some p) today).acquisitionDate = p.acquisitionDate) ∧
    (p.acquisitionDate = "" → (resetForm (some p) today).acquisitionDate = today) ∧
    (p.category ≠ "" → (resetForm (some p) today).category = p.category) ∧
    (p.category = "" → (resetForm (some p) today).category = "その他") ∧
    (p.manufacturer ≠ "" → (resetForm (some p) today).manufacturer = p.manufacturer) ∧
    (p.manufacturer = "" → (resetForm (some p) today).manufacturer = "指定なし") := by
  refine ⟨rfl, ?_, ?_, ?_, rfl, ?_, ?_, ?_, ?_, ?_, ?_, ?_, ?_⟩
  · show orElseStr (some p.name) "" = p.name
    unfold orElseStr
    split <;> simp_all
  · show orElseStr (some p.photo) "" = p.photo
    unfold orElseStr
    split <;> simp_all
  · show orElseStr (some p.notes) "" = p.notes
    unfold orElseStr
    split <;> simp_all
  · intro h
    show orElseNum (some p.quantity) 1 = p.quantity
    simp [orElseNum, h]
  · intro h
    show orElseNum (some p.quantity) 1 = 1
    simp [orElseNum, h]
  · intro h
    show orElseStr (some p.acquisitionDate) today = p.acquisitionDate
    simp [orElseStr, h]
  · intro h
    show orElseStr (some p.acquisitionDate) today = today
    simp [orElseStr, h]
  · intro h
    show orElseStr (some p.category) "その他" = p.category
    simp [orElseStr, h]
  · intro h
    show orElseStr (some p.category) "その他" = "その他"
    simp [orElseStr, h]
  · intro h
    show orElseStr (some p.manufacturer) "指定なし" = p.manufacturer
    simp [orElseStr, h]
  · intro h
    show orElseStr (some p.manufacturer) "指定なし" = "指定なし"
    simp [orElseStr, h]

/-- Witness for C9 (amended) at a concrete record: a truthy quantity is
kept and an empty category falls back. -/
theorem resetForm_spec_witness :
    (resetForm (some { exA with quantity := 4, category := "" }) "2025-05-05").quantity = 4 ∧
    (resetForm (some { exA with quantity := 4, category := "" }) "2025-05-05").category
      = "その他" ∧
    resetForm none "2025-05-05" =
      { name := "", quantity := 1, acquisitionDate := "2025-05-05", photo := "", notes := ""
      , category := "その他", manufacturer := "指定なし", error := "" } := by
  refine ⟨(resetForm_spec _ "2025-05-05").2.2.2.2.2.1 (by decide), ?_, ?_⟩
  · exact (resetForm_spec { exA with quantity := 4, category := "" }
      "2025-05-05").2.2.2.2.2.2.2.2.2.2.1 rfl
  · exact (resetForm_spec exA "2025-05-05").1

/-! ## Lemmas about the persistence machine -/

lemma fireStatusIfDue_now (m : AppModel) : (fireStatusIfDue m).now = m.now := by
  unfold fireStatusIfDue
  split
  · rfl
  · split <;> rfl

lemma fireStatusIfDue_prizes (m : AppModel) : (fireStatusIfDue m).prizes = m.prizes := by
  unfold fireStatusIfDue
  split
  · rfl
  · split <;> rfl

lemma fireStatusIfDue_hydrated (m : AppModel) : (fireStatusIfDue m).hydrated = m.hydrated := by
  unfold fireStatusIfDue
  split
  · rfl
  · split <;> rfl

lemma fireStatusIfDue_saveSeq (m : AppModel) : (fireStatusIfDue m).saveSeq = m.saveSeq := by
  unfold fireStatusIfDue
  split
  · rfl
  · split <;> rfl

lemma fireStatusIfDue_pendingSave (m : AppModel) :
    (fireStatusIfDue m).pendingSave = m.pendingSave := by
  unfold fireStatusIfDue
  split
  · rfl
  · split <;> rfl

lemma fireStatusIfDue_store (m : AppModel) : (fireStatusIfDue m).store = m.store := by
  unfold fireStatusIfDue
  split
  · rfl
  · split <;> rfl

lemma fireStatusIfDue_writes (m : AppModel) : (fireStatusIfDue m).writes = m.writes := by
  unfold fireStatusIfDue
  split
  · rfl
  · split <;> rfl

lemma fireSaveIfDue_hydrated (m : AppModel) : (fireSaveIfDue m).hydrated = m.hydrated := by
  unfold fireSaveIfDue
  split
  · rfl
  · split
    · split <;> rfl
    · rfl

lemma fireSaveIfDue_none (m : AppModel) (h : m.pendingSave = none) : fireSaveIfDue m = m := by
  unfold fireSaveIfDue
  rw [h]

lemma fireStatusIfDue_none (m : AppModel) (h : m.pendingStatus = none) :
    fireStatusIfDue m = m := by
  unfold fireStatusIfDue
  rw [h]

lemma fireSaveIfDue_not_due (m : AppModel) (t : PendingSave) (hp : m.pendingSave = some t)
    (h : ¬ t.fireAt ≤ m.now) : fireSaveIfDue m = m := by
  unfold fireSaveIfDue
  rw [hp]
  simp [h]

lemma fireSaveIfDue_fire (m : AppModel) (t : PendingSave) (hp : m.pendingSave = some t)
    (hdue : t.fireAt ≤ m.now) (hseq : t.seq = m.saveSeq) :
    fireSaveIfDue m =
      { m with
        pendingSave := none,
        store := some t.snapshot,
        writes := m.writes ++ [t.snapshot],
        saveStatus := .saved,
        pendingStatus := some (t.fireAt + 3000) } := by
  unfold fireSaveIfDue
  rw [hp]
  simp [hdue, hseq]

lemma fireSaveIfDue_stale (m : AppModel) (t : PendingSave) (hp : m.pendingSave = some t)
    (hdue : t.fireAt ≤ m.now) (hseq : t.seq ≠ m.saveSeq) :
    fireSaveIfDue m = { m with pendingSave := none } := by
  unfold fireSaveIfDue
  rw [hp]
  simp [hdue, hseq]

lemma runSaveEffect_hydrated_eq (m : AppModel) (h : m.hydrated = true) :
    runSaveEffect m =
      { m with
        saveSeq := m.saveSeq + 1,
        saveStatus := .saving,
        pendingSave := some { fireAt := m.now + 500, seq := m.saveSeq + 1, snapshot := m.prizes },
        pendingStatus := none } := by
  unfold runSaveEffect
  rw [h]
  simp

lemma runSaveEffect_not_hydrated (m : AppModel) (h : m.hydrated = false) :
    runSaveEffect m = m := by
  unfold runSaveEffect
  rw [h]
  simp

lemma runSaveEffect_hydrated_flag (m : AppModel) : (runSaveEffect m).hydrated = m.hydrated := by
  unfold runSaveEffect
  split <;> rfl

lemma applyHydrate_hydrated (m : AppModel) (r : LoadResult) :
    (applyHydrate m r).hydrated = true := by
  unfold applyHydrate
  cases r <;> simp [runSaveEffect_hydrated_flag]

lemma step_preserves_hydrated (m : AppModel) (e : Ev) (h : m.hydrated = true) :
    (step m e).hydrated = true := by
  cases e with
  | hydrate r => exact applyHydrate_hydrated m r
  | change ps =>
    show (runSaveEffect _).hydrated = true
    rw [runSaveEffect_hydrated_flag]
    exact h
  | elapse d =>
    show (fireStatusIfDue (fireSaveIfDue _)).hydrated = true
    rw [fireStatusIfDue_hydrated, fireSaveIfDue_hydrated]
    exact h
  | unmount => exact h

/-- Core of the debounce argument: from a state that has just scheduled a
save of `c` (deadline 500 from now, generation current), a burst whose gaps
are all under 500 keeps cancelling-and-rescheduling, and the final wait of
at least 500 produces exactly one write, of the last collection. -/
lemma burst_aux (D : Nat) (hD : 500 ≤ D) :
    ∀ (rest : List (Nat × List Prize)) (m : AppModel) (c : List Prize),
      m.hydrated = true →
      m.pendingSave = some { fireAt := m.now + 500, seq := m.saveSeq, snapshot := c } →
      (∀ gc ∈ rest, gc.1 < 500) →
      (run m (burstTrace rest D)).writes = m.writes ++ [lastState c rest] ∧
      (run m (burstTrace rest D)).store = some (lastState c rest) := by
  intro rest
  induction rest with
  | nil =>
    intro m c hh hp hgaps
    show (elapse m D).writes = m.writes ++ [c] ∧ (elapse m D).store = some c
    have hfire := fireSaveIfDue_fire { m with now := m.now + D }
      { fireAt := m.now + 500, seq := m.saveSeq, snapshot := c } hp
      (by show m.now + 500 ≤ m.now + D; omega) rfl
    unfold elapse
    rw [hfire, fireStatusIfDue_writes, fireStatusIfDue_store]
    exact ⟨rfl, rfl⟩
  | cons gc rest2 ih =>
    obtain ⟨g, c2⟩ := gc
    intro m c hh hp hgaps
    have hg : g < 500 := hgaps (g, c2) (List.mem_cons_self _ _)
    have hnotdue : ¬ (({ fireAt := m.now + 500, seq := m.saveSeq, snapshot := c } :
        PendingSave).fireAt ≤ ({ m with now := m.now + g } : AppModel).now) := by
      show ¬ (m.now + 500 ≤ m.now + g)
      omega
    have h3 : elapse m g = fireStatusIfDue { m with now := m.now + g } := by
      unfold elapse
      rw [fireSaveIfDue_not_due { m with now := m.now + g } _ hp hnotdue]
    have f_hyd : (elapse m g).hydrated = true := by
      rw [h3, fireStatusIfDue_hydrated]
      exact hh
    have h4 : applyChange (elapse m g) c2 = { elapse m g with
        prizes := c2,
        saveSeq := (elapse m g).saveSeq + 1,
        saveStatus := .saving,
        pendingSave := some { fireAt := (elapse m g).now + 500,
                              seq := (elapse m g).saveSeq + 1, snapshot := c2 },
        pendingStatus := none } := by
      unfold applyChange
      rw [runSaveEffect_hydrated_eq { elapse m g with prizes := c2 } f_hyd]
    have hrec := ih (applyChange (elapse m g) c2) c2
      (by rw [h4]; exact f_hyd)
      (by rw [h4])
      (fun gc2 hgc2 => hgaps gc2 (List.mem_cons_of_mem _ hgc2))
    obtain ⟨hw, hs⟩ := hrec
    show (run (applyChange (elapse m g) c2) (burstTrace rest2 D)).writes
        = m.writes ++ [lastState c2 rest2] ∧
      (run (applyChange (elapse m g) c2) (burstTrace rest2 D)).store
        = some (lastState c2 rest2)
    refine ⟨?_, hs⟩
    rw [hw, h4]
    show (elapse m g).writes ++ [lastState c2 rest2] = m.writes ++ [lastState c2 rest2]
    rw [h3, fireStatusIfDue_writes]

/-! ## Claim C1 -/

/-- C1: after hydration, a burst of collection changes whose gaps are all
below the 500-unit debounce window, followed by a wait of at least 500
units, produces exactly one store write — the write log grows by exactly
the last collection of the burst, and the store ends up holding it (no
intermediate state is ever persisted); independently, a scheduled write
whose captured generation differs from the current counter when it fires
is abandoned without touching the store or the write log. -/
theorem debounce_single_write :
    (∀ (m : AppModel) (first : List Prize) (rest : List (Nat × List Prize)) (D : Nat),
      m.hydrated = true → (∀ gc ∈ rest, gc.1 < 500) → 500 ≤ D →
      (run m (Ev.change first :: burstTrace rest D)).writes
          = m.writes ++ [lastState first rest] ∧
      (run m (Ev.change first :: burstTrace rest D)).store
          = some (lastState first rest)) ∧
    (∀ (m : AppModel) (t : PendingSave) (d : Nat),
      m.pendingSave = some t → t.seq ≠ m.saveSeq →
      (elapse m d).store = m.store ∧ (elapse m d).writes = m.writes) := by
  constructor
  · intro m first rest D hh hgaps hD
    have h1 : applyChange m first = { m with
        prizes := first,
        saveSeq := m.saveSeq + 1,
        saveStatus := .saving,
        pendingSave := some { fireAt := m.now + 500, seq := m.saveSeq + 1, snapshot := first },
        pendingStatus := none } := by
      unfold applyChange
      rw [runSaveEffect_hydrated_eq { m with prizes := first } hh]
    have hrec := burst_aux D hD rest (applyChange m first) first
      (by rw [h1]; exact hh)
      (by rw [h1])
      hgaps
    obtain ⟨hw, hs⟩ := hrec
    show (run (applyChange m first) (burstTrace rest D)).writes
        = m.writes ++ [lastState first rest] ∧
      (run (applyChange m first) (burstTrace rest D)).store = some (lastState first rest)
    refine ⟨?_, hs⟩
    rw [hw, h1]
  · intro m t d hp hseq
    unfold elapse
    by_cases hdue : t.fireAt ≤ m.now + d
    · rw [fireSaveIfDue_stale { m with now := m.now + d } t hp hdue hseq,
        fireStatusIfDue_store, fireStatusIfDue_writes]
      exact ⟨rfl, rfl⟩
    · rw [fireSaveIfDue_not_due { m with now := m.now + d } t hp hdue,
        fireStatusIfDue_store, fireStatusIfDue_writes]
      exact ⟨rfl, rfl⟩

/-- Witness for C1: from a freshly hydrated empty state, a change to
`[exA]` followed 100 units later by a change to `[exA, exB]` and then a
500-unit wait writes exactly once, the final collection; and a concrete
stale callback leaves the store and the write log alone. -/
theorem debounce_single_write_witness :
    (run (applyHydrate (initModel none) .absent)
        (Ev.change [exA] :: burstTrace [(100, [exA, exB])] 500)).writes
      = [] ++ [[exA, exB]] ∧
    (run (applyHydrate (initModel none) .absent)
        (Ev.change [exA] :: burstTrace [(100, [exA, exB])] 500)).store
      = some [exA, exB] ∧
    (elapse { now := 600, prizes := [exB], hydrated := true, saveSeq := 2,
              saveStatus := .saving,
              pendingSave := some { fireAt := 700, seq := 1, snapshot := [exA] },
              pendingStatus := none, store := some [exA], writes := [[exA]] } 200).store
      = some [exA] ∧
    (elapse { now := 600, prizes := [exB], hydrated := true, saveSeq := 2,
              saveStatus := .saving,
              pendingSave := some { fireAt := 700, seq := 1, snapshot := [exA] },
              pendingStatus := none, store := some [exA], writes := [[exA]] } 200).writes
      = [[exA]] := by
  have h1 := debounce_single_write.1 (applyHydrate (initModel none) .absent)
    [exA] [(100, [exA, exB])] 500 (by decide) (by decide) (by decide)
  have h2 := debounce_single_write.2
    { now := 600, prizes := [exB], hydrated := true, saveSeq := 2, saveStatus := .saving,
      pendingSave := some { fireAt := 700, seq := 1, snapshot := [exA] },
      pendingStatus := none, store := some [exA], writes := [[exA]] }
    { fireAt := 700, seq := 1, snapshot := [exA] } 200 rfl (by decide)
  exact ⟨h1.1, h1.2, h2.1, h2.2⟩

/-! ## Claim C2 -/

/-- Before hydration nothing is scheduled and nothing is written: the
hydrated flag stays false, both timers stay empty, and the write log and
store are untouched, whatever mutations and waits happen. -/
lemma run_no_hydrate_inv :
    ∀ (evs : List Ev) (m : AppModel),
      (∀ e ∈ evs, isHydrateEv e = false) →
      m.hydrated = false → m.pendingSave = none → m.pendingStatus = none →
      (run m evs).hydrated = false ∧ (run m evs).pendingSave = none ∧
      (run m evs).pendingStatus = none ∧ (run m evs).writes = m.writes ∧
      (run m evs).store = m.store := by
  intro evs
  induction evs with
  | nil =>
    intro m _ h1 h2 h3
    exact ⟨h1, h2, h3, rfl, rfl⟩
  | cons e rest ih =>
    intro m hne h1 h2 h3
    have hrest : ∀ x ∈ rest, isHydrateEv x = false :=
      fun x hx => hne x (List.mem_cons_of_mem _ hx)
    cases e with
    | hydrate r =>
      have := hne _ (List.mem_cons_self _ _)
      simp [isHydrateEv] at this
    | change ps =>
      have hstep : step m (.change ps) = { m with prizes := ps } := by
        show applyChange m ps = _
        unfold applyChange
        exact runSaveEffect_not_hydrated _ h1
      have hrun : run m (Ev.change ps :: rest) = run { m with prizes := ps } rest := by
        show run (step m (.change ps)) rest = _
        rw [hstep]
      rw [hrun]
      exact ih { m with prizes := ps } hrest h1 h2 h3
    | elapse d =>
      have hstep : step m (.elapse d) = { m with now := m.now + d } := by
        show Inventory.elapse m d = _
        unfold Inventory.elapse
        rw [fireSaveIfDue_none { m with now := m.now + d } h2,
          fireStatusIfDue_none { m with now := m.now + d } h3]
      have hrun : run m (Ev.elapse d :: rest) = run { m with now := m.now + d } rest := by
        show run (step m (.elapse d)) rest = _
        rw [hstep]
      rw [hrun]
      exact ih { m with now := m.now + d } hrest h1 h2 h3
    | unmount =>
      have hrun : run m (Ev.unmount :: rest) = run (cancelTimers m) rest := rfl
      rw [hrun]
      exact ih (cancelTimers m) hrest h1 rfl rfl

/-- C2: starting from mount, as long as the hydration event has not
happened, no store write occurs and the store keeps its prior contents even
if the collection is mutated and time passes; the hydrated flag is false
throughout that window, the load attempt sets it to true whatever its
outcome, and every later step keeps it true (so it becomes true exactly
once). -/
theorem no_write_before_hydration (store0 : Option (List Prize)) (pre : List Ev)
    (hne : ∀ e ∈ pre, isHydrateEv e = false) :
    (run (initModel store0) pre).writes = [] ∧
    (run (initModel store0) pre).store = store0 ∧
    (run (initModel store0) pre).hydrated = false ∧
    (∀ r : LoadResult, (applyHydrate (run (initModel store0) pre) r).hydrated = true) ∧
    (∀ (m : AppModel) (e : Ev), m.hydrated = true → (step m e).hydrated = true) := by
  obtain ⟨h1, h2, h3, h4, h5⟩ := run_no_hydrate_inv pre (initModel store0) hne rfl rfl rfl
  exact ⟨h4, h5, h1, fun r => applyHydrate_hydrated _ r, step_preserves_hydrated⟩

/-- Witness for C2: with `[exA]` stored, a pre-hydration mutation and a
long wait write nothing and leave the store intact, and hydrating
afterwards (even with a failing load) sets the flag. -/
theorem no_write_before_hydration_witness :
    (run (initModel (some [exA])) [Ev.change [exB], Ev.elapse 600]).writes = [] ∧
    (run (initModel (some [exA])) [Ev.change [exB], Ev.elapse 600]).store = some [exA] ∧
    (applyHydrate (run (initModel (some [exA])) [Ev.change [exB], Ev.elapse 600])
      .failure).hydrated = true := by
  have h := no_write_before_hydration (some [exA]) [Ev.change [exB], Ev.elapse 600]
    (by intro e he; fin_cases he <;> rfl)
  exact ⟨h.1, h.2.1, h.2.2.2.1 .failure⟩

/-! ## Claim C6 -/

/-- The reachability invariant behind C6: before hydration nothing is
scheduled, and a scheduled save whose generation is current captured the
current collection. -/
def GoodPending (m : AppModel) : Prop :=
  (m.hydrated = false → m.pendingSave = none) ∧
  (∀ t : PendingSave, m.pendingSave = some t → t.seq = m.saveSeq → t.snapshot = m.prizes)

lemma goodPending_of_none (m : AppModel) (h : m.pendingSave = none) : GoodPending m := by
  refine ⟨fun _ => h, ?_⟩
  intro t ht
  rw [h] at ht
  exact absurd ht (by simp)

lemma goodPending_runSaveEffect (m : AppModel) (hh : m.hydrated = true) :
    GoodPending (runSaveEffect m) := by
  rw [runSaveEffect_hydrated_eq _ hh]
  constructor
  · intro hfalse
    rw [show ({ m with
        saveSeq := m.saveSeq + 1,
        saveStatus := SaveStatus.saving,
        pendingSave := some { fireAt := m.now + 500, seq := m.saveSeq + 1, snapshot := m.prizes },
        pendingStatus := none } : AppModel).hydrated = m.hydrated from rfl, hh] at hfalse
    exact absurd hfalse (by simp)
  · intro t ht _
    have : some { fireAt := m.now + 500, seq := m.saveSeq + 1, snapshot := m.prizes } = some t :=
      ht
    rw [← Option.some_inj.mp this]

lemma goodPending_fireSaveIfDue (m : AppModel)
    (hg1 : m.hydrated = false → m.pendingSave = none)
    (hg2 : ∀ t : PendingSave, m.pendingSave = some t → t.seq = m.saveSeq →
      t.snapshot = m.prizes) :
    GoodPending (fireSaveIfDue m) := by
  cases hp : m.pendingSave with
  | none =>
    rw [fireSaveIfDue_none m hp]
    exact goodPending_of_none _ hp
  | some t =>
    by_cases hdue : t.fireAt ≤ m.now
    · by_cases hseq : t.seq = m.saveSeq
      · rw [fireSaveIfDue_fire m t hp hdue hseq]
        exact goodPending_of_none _ rfl
      · rw [fireSaveIfDue_stale m t hp hdue hseq]
        exact goodPending_of_none _ rfl
    · rw [fireSaveIfDue_not_due m t hp hdue]
      exact ⟨hg1, hg2⟩

lemma goodPending_fireStatusIfDue (m : AppModel) (hg : GoodPending m) :
    GoodPending (fireStatusIfDue m) := by
  constructor
  · intro hfalse
    rw [fireStatusIfDue_pendingSave]
    rw [fireStatusIfDue_hydrated] at hfalse
    exact hg.1 hfalse
  · intro t ht hseq
    rw [fireStatusIfDue_prizes]
    rw [fireStatusIfDue_pendingSave] at ht
    rw [fireStatusIfDue_saveSeq] at hseq
    exact hg.2 t ht hseq

lemma goodPending_step (m : AppModel) (e : Ev) (hg : GoodPending m) :
    GoodPending (step m e) := by
  cases e with
  | hydrate r =>
    show GoodPending (applyHydrate m r)
    unfold applyHydrate
    cases r
    · exact goodPending_runSaveEffect _ rfl
    · exact goodPending_runSaveEffect _ rfl
    · exact goodPending_runSaveEffect _ rfl
  | change ps =>
    show GoodPending (applyChange m ps)
    unfold applyChange
    by_cases hh : m.hydrated = true
    · exact goodPending_runSaveEffect _ hh
    · have h1 : m.hydrated = false := by
        cases hm : m.hydrated
        · rfl
        · exact absurd hm hh
      rw [runSaveEffect_not_hydrated { m with prizes := ps } h1]
      exact goodPending_of_none _ (hg.1 h1)
  | elapse d =>
    show GoodPending (fireStatusIfDue (fireSaveIfDue { m with now := m.now + d }))
    exact goodPending_fireStatusIfDue _
      (goodPending_fireSaveIfDue { m with now := m.now + d }
        (fun h => hg.1 h) (fun t ht hs => hg.2 t ht hs))
  | unmount =>
    exact goodPending_of_none _ rfl

lemma goodPending_run (store0 : Option (List Prize)) :
    ∀ (evs : List Ev), GoodPending (run (initModel store0) evs) := by
  have general : ∀ (evs : List Ev) (m : AppModel), GoodPending m → GoodPending (run m evs) := by
    intro evs
    induction evs with
    | nil => intro m hm; exact hm
    | cons e rest ih =>
      intro m hm
      exact ih (step m e) (goodPending_step m e hm)
  intro evs
  exact general evs (initModel store0) (goodPending_of_none _ rfl)

/-- C6: in every reachable state, when the scheduled write's captured
generation matches the current counter and its deadline is reached, the
full current collection — whatever it is, including the empty collection —
is written to the store unconditionally, and the write is logged. -/
theorem matching_generation_writes (store0 : Option (List Prize)) (evs : List Ev)
    (d : Nat) (t : PendingSave)
    (hp : (run (initModel store0) evs).pendingSave = some t)
    (hseq : t.seq = (run (initModel store0) evs).saveSeq)
    (hdue : t.fireAt ≤ (run (initModel store0) evs).now + d) :
    (elapse (run (initModel store0) evs) d).store
        = some ((run (initModel store0) evs).prizes) ∧
    (elapse (run (initModel store0) evs) d).writes
        = (run (initModel store0) evs).writes ++ [(run (initModel store0) evs).prizes] := by
  have hsnap : t.snapshot = (run (initModel store0) evs).prizes :=
    (goodPending_run store0 evs).2 t hp hseq
  unfold elapse
  rw [fireSaveIfDue_fire { run (initModel store0) evs with
        now := (run (initModel store0) evs).now + d } t hp hdue hseq,
    fireStatusIfDue_store, fireStatusIfDue_writes, hsnap]
  exact ⟨rfl, rfl⟩

/-- Witness for C6: hydrating against a failing load leaves the collection
empty, and after the 500-unit wait the empty collection is written,
overwriting the previously stored `[exA]` with the empty sequence. -/
theorem matching_generation_writes_witness :
    (elapse (run (initModel (some [exA])) [Ev.hydrate .failure]) 500).store = some [] ∧
    (elapse (run (initModel (some [exA])) [Ev.hydrate .failure]) 500).writes = [] ++ [[]] := by
  have h := matching_generation_writes (some [exA]) [Ev.hydrate .failure] 500
    { fireAt := 500, seq := 1, snapshot := [] } rfl rfl (by decide)
  exact ⟨h.1, h.2⟩

end Inventory
